import Mathlib

/-!
Verification of the dataset-partitioning and metadata-generation logic of
`heareval/tasks/speech_commands.py` (Google Speech Commands preprocessing).

The Python source is shallowly embedded below: dataframes are lists of
rows, the Python `assert` statements become `Except.error` results, and
filesystem contents (directory listings, the newline-delimited reference
lists) are explicit inputs.  Values of the `relpath` dataframe column keep
their Python runtime type (`str` from `os.path.join` versus `pathlib.Path`
from globbing), because pandas compares them type-sensitively.  Python's
`range`, `os.path` helpers, `pathlib` globbing, and the slugification of
file names are embedded as executable Lean functions that follow the
library semantics on the inputs this pipeline feeds them (ASCII path
strings).
-/

/-! ## Constants from the source module -/

def WORDS : List String := ["down", "go", "left", "no", "off", "on", "right", "stop", "up", "yes"]

def BACKGROUND_NOISE : String := "_background_noise_"

def UNKNOWN : String := "_unknown_"

def SILENCE : String := "_silence_"

/-! ## Character-list utilities (embedding of `os.path` / `pathlib` / `slugify`) -/

/-- Split a character list at every occurrence of `sep`; the pieces do not
contain `sep`.  Mirrors splitting a POSIX path on the separator. -/
def splitOnCharAux (sep : Char) : List Char → List Char → List (List Char)
  | [], cur => [cur.reverse]
  | c :: rest, cur =>
    if c == sep then cur.reverse :: splitOnCharAux sep rest []
    else splitOnCharAux sep rest (c :: cur)

def splitOnChar (sep : Char) (l : List Char) : List (List Char) :=
  splitOnCharAux sep l []

/-- Embedding of `os.path.basename`: the part after the last separator. -/
def basenameChars (l : List Char) : List Char :=
  (l.reverse.takeWhile (fun c => c != '/')).reverse

def os_path_basename (p : String) : String := String.mk (basenameChars p.data)

/-- Embedding of `os.path.dirname` (posixpath): everything up to the last
separator, with trailing separators stripped unless the head is all
separators. -/
def dirnameChars (l : List Char) : List Char :=
  let head := (l.reverse.dropWhile (fun c => c != '/')).reverse
  if head.isEmpty then []
  else if head.all (fun c => c == '/') then head
  else (head.reverse.dropWhile (fun c => c == '/')).reverse

def os_path_dirname (p : String) : String := String.mk (dirnameChars p.data)

/-- Embedding of `pathlib.PurePath.parts` for relative/absolute POSIX paths:
the non-empty components, with `.` components normalized away (the leading
root component of an absolute path is dropped; it is never among the last
two components of the paths this pipeline slugifies). -/
def pathParts (p : String) : List String :=
  ((splitOnChar '/' p.data).map String.mk).filter (fun s => s != "" && s != ".")

/-- Python `parts[-2:]`. -/
def lastTwo {α : Type} (l : List α) : List α := l.drop (l.length - 2)

/-- Embedding of `os.path.join(*parts)` for parts that contain no separator
and are not absolute: intercalate the separator. -/
def joinPartsChars (parts : List String) : List Char :=
  List.intercalate ['/'] (parts.map String.data)

/-- Stem of a file basename under the `posixpath.splitext` rule: cut at the
last dot, unless every character before that dot is itself a dot (then the
name has no extension). -/
def stemChars (b : List Char) : List Char :=
  if b.any (fun c => c == '.') then
    let stem := ((b.reverse.dropWhile (fun c => c != '.')).drop 1).reverse
    if stem.all (fun c => c == '.') then b else stem
  else b

/-- Embedding of `os.path.splitext(p)[0]`: the extension is only looked for
in the component after the last separator. -/
def os_path_splitext_fst (p : String) : String :=
  let comps := splitOnChar '/' p.data
  let base := comps.getLastD []
  String.mk (List.intercalate ['/'] (comps.dropLast ++ [stemChars base]))

/-- One pass of `python-slugify` word collection: maximal runs of
alphanumeric characters of the (already lowercased) input, in order. -/
def slugWordsAux : List Char → List Char → List (List Char)
  | [], cur => if cur.isEmpty then [] else [cur.reverse]
  | c :: rest, cur =>
    if c.isAlphanum then slugWordsAux rest (c :: cur)
    else if cur.isEmpty then slugWordsAux rest []
    else cur.reverse :: slugWordsAux rest []

/-- Embedding of `slugify.slugify` on ASCII input: lowercase, collapse every
maximal run of non-alphanumeric characters to a single hyphen, and strip
leading/trailing hyphens. -/
def slugify (s : String) : String :=
  String.mk (List.intercalate ['-'] (slugWordsAux (s.data.map Char.toLower) []))

/-! ## `ExtractMetadata` static helpers -/

/-- Embedding of `ExtractMetadata.apply_label`: the label is the name of the
immediate parent folder, collapsed to `UNKNOWN` unless it is a target word
or the silence sentinel. -/
def apply_label (relative_path : String) : String :=
  let label := os_path_basename (os_path_dirname relative_path)
  if ¬ label ∈ WORDS ∧ label ≠ SILENCE then UNKNOWN else label

/-- Embedding of `ExtractMetadata.slugify_file_name`: slugify the join of the
last two path components with the extension dropped. -/
def slugify_file_name (relative_path : String) : String :=
  slugify (os_path_splitext_fst (String.mk (joinPartsChars (lastTwo (pathParts relative_path)))))

/-- The marker token of the speaker-id convention, as characters. -/
def nohashMarker : List Char := ['-', 'n', 'o', 'h', 'a', 's', 'h', '-']

/-- Embedding of `re.sub(r"-nohash-.*$", "", slug)` for slug strings (which
contain no newline): drop everything from the first occurrence of the
marker onward. -/
def stripFromMarker : List Char → List Char
  | [] => []
  | c :: rest =>
    if nohashMarker.isPrefixOf (c :: rest) then [] else c :: stripFromMarker rest

def removeNohash (slug : String) : String := String.mk (stripFromMarker slug.data)

/-- Whether `m` occurs as a contiguous substring. -/
def hasSubstr (m : List Char) : List Char → Bool
  | [] => m.isEmpty
  | c :: rest => m.isPrefixOf (c :: rest) || hasSubstr m rest

/-- Base used by the stable string hash model; it exceeds every Unicode
scalar value, so the digits of the encoding are in range. -/
def hashBase : Nat := 2097153

def charListHash : List Char → Nat
  | [] => 0
  | c :: rest => (c.toNat + 1) + hashBase * charListHash rest

/-- Modelled from the spec: `heareval.tasks.util.luigi.filename_to_int_hash`
is not under `src/`.  The spec requires a deterministic, unseeded
string-to-integer function that is identical across processes, and the
source comments call it "a unique hash at a file level"; we model it as an
injective positional encoding of the string's characters. -/
def filename_to_int_hash (s : String) : Nat := charListHash s.data

/-- Embedding of `ExtractMetadata.get_subsample_key`: the pair of the
speaker-level hash (marker suffix stripped) and the file-level hash. -/
def get_subsample_key (slug : String) : Nat × Nat :=
  (filename_to_int_hash (removeNohash slug), filename_to_int_hash slug)

/-! ## Basic lemmas about the embedded helpers -/

theorem stripFromMarker_of_not_hasSubstr :
    ∀ l : List Char, hasSubstr nohashMarker l = false → stripFromMarker l = l := by
  intro l
  induction l with
  | nil => intro _; rfl
  | cons c rest ih =>
    intro h
    simp only [hasSubstr, Bool.or_eq_false_iff] at h
    simp only [stripFromMarker, h.1, Bool.false_eq_true, if_false]
    rw [ih h.2]

theorem charToNat_lt (c : Char) : c.toNat < 1114112 := by
  have h := c.valid
  have e : c.toNat = c.val.toNat := rfl
  rcases h with h | ⟨h1, h2⟩ <;> omega

theorem charListHash_inj : ∀ l1 l2 : List Char, charListHash l1 = charListHash l2 → l1 = l2 := by
  intro l1
  induction l1 with
  | nil =>
    intro l2 h
    cases l2 with
    | nil => rfl
    | cons b t2 =>
      exfalso
      simp only [charListHash] at h
      omega
  | cons a t1 ih =>
    intro l2 h
    cases l2 with
    | nil =>
      exfalso
      simp only [charListHash] at h
      omega
    | cons b t2 =>
      simp only [charListHash] at h
      have ha := charToNat_lt a
      have hb := charToNat_lt b
      have hmodl : ((a.toNat + 1) + hashBase * charListHash t1) % hashBase = (a.toNat + 1) % hashBase :=
        Nat.add_mul_mod_self_left (a.toNat + 1) hashBase (charListHash t1)
      have hmodr : ((b.toNat + 1) + hashBase * charListHash t2) % hashBase = (b.toNat + 1) % hashBase :=
        Nat.add_mul_mod_self_left (b.toNat + 1) hashBase (charListHash t2)
      have hbase : hashBase = 2097153 := rfl
      have hal : (a.toNat + 1) % hashBase = a.toNat + 1 := Nat.mod_eq_of_lt (by omega)
      have hbl : (b.toNat + 1) % hashBase = b.toNat + 1 := Nat.mod_eq_of_lt (by omega)
      have hab : a.toNat = b.toNat := by
        have := h ▸ hmodl
        omega
      have hchar : a = b := Char.ext (UInt32.toNat.inj hab)
      have htail : charListHash t1 = charListHash t2 := by
        have hmul : hashBase * charListHash t1 = hashBase * charListHash t2 := by omega
        exact Nat.eq_of_mul_eq_mul_left (by omega) hmul
      rw [hchar, ih t2 htail]

theorem filename_to_int_hash_inj {s t : String}
    (h : filename_to_int_hash s = filename_to_int_hash t) : s = t :=
  String.ext (charListHash_inj s.data t.data h)

/-! ## Claims C4, C7, C8, C10 -/

/-- C4: `get_subsample_key` is the pair of the stable hash of the
marker-stripped slug (the speaker id) and the stable hash of the slug
itself, and it is a pure deterministic function of the slug string alone:
identical slugs always yield identical pairs. -/
theorem c4_subsample_key_pure (s t : String) (h : s = t) :
    get_subsample_key s = (filename_to_int_hash (removeNohash s), filename_to_int_hash s)
    ∧ get_subsample_key s = get_subsample_key t :=
  ⟨rfl, by rw [h]⟩

theorem c4_witness :
    ("off-xyz123-nohash-0" : String) = ("off-xyz123-nohash-0" : String)
    ∧ (get_subsample_key ("off-xyz123-nohash-0") =
        (filename_to_int_hash (removeNohash ("off-xyz123-nohash-0")),
          filename_to_int_hash ("off-xyz123-nohash-0"))
      ∧ get_subsample_key ("off-xyz123-nohash-0") = get_subsample_key ("off-xyz123-nohash-0")) :=
  ⟨rfl, c4_subsample_key_pure ("off-xyz123-nohash-0") ("off-xyz123-nohash-0") rfl⟩

/-- C7: the emitted label is the immediate parent folder name exactly when
that name is a target word or the silence sentinel, and `UNKNOWN`
otherwise; hence every label lies in the target vocabulary together with
the two sentinels, and no other folder name survives verbatim. -/
theorem c7_label_closure (p : String) :
    apply_label p =
      (if os_path_basename (os_path_dirname p) ∈ WORDS
          ∨ os_path_basename (os_path_dirname p) = SILENCE
        then os_path_basename (os_path_dirname p) else UNKNOWN)
    ∧ (apply_label p ∈ WORDS ∨ apply_label p = UNKNOWN ∨ apply_label p = SILENCE) := by
  unfold apply_label
  by_cases h1 : os_path_basename (os_path_dirname p) ∈ WORDS
  · simp [h1]
  · by_cases h2 : os_path_basename (os_path_dirname p) = SILENCE
    · simp [h1, h2]
    · simp [h1, h2]

/-- C8: the slug of a relative path is the slugification (lowercase,
separator-consistent) of the parent folder name joined with the file stem
(extension dropped), and the speaker id strips the slug from the
`-nohash-` marker onward; in particular `off/xyz123-nohash-0.wav` slugs to
`off-xyz123-nohash-0` with speaker id `off-xyz123`. -/
theorem c8_slug_construction :
    (∀ p : String, slugify_file_name p =
        slugify (os_path_splitext_fst (String.mk (joinPartsChars (lastTwo (pathParts p))))))
    ∧ slugify_file_name ("off/xyz123-nohash-0.wav") = "off-xyz123-nohash-0"
    ∧ removeNohash ("off-xyz123-nohash-0") = "off-xyz123" :=
  ⟨fun _ => rfl, rfl, rfl⟩

/-- C10: when the `-nohash-` marker does not occur in a slug, the
substitution leaves the slug unchanged, so both components of
`get_subsample_key` are the stable hash of the unmodified slug. -/
theorem c10_no_marker_equal_components (s : String)
    (h : hasSubstr nohashMarker s.data = false) :
    get_subsample_key s = (filename_to_int_hash s, filename_to_int_hash s) := by
  unfold get_subsample_key removeNohash
  rw [stripFromMarker_of_not_hasSubstr s.data h]

theorem c10_witness :
    hasSubstr nohashMarker (String.data ("abc")) = false
    ∧ get_subsample_key ("abc") = (filename_to_int_hash ("abc"), filename_to_int_hash ("abc")) :=
  ⟨by decide, c10_no_marker_equal_components ("abc") (by decide)⟩

/-! ## Lemmas for the `-nohash-` marker position -/

theorem stripFromMarker_cons (c : Char) (rest : List Char) :
    stripFromMarker (c :: rest) =
      if nohashMarker.isPrefixOf (c :: rest) then [] else c :: stripFromMarker rest := rfl

theorem prefix_of_append_iff {m v : List Char} (w : List Char) (h : m.length ≤ v.length) :
    m <+: v ++ w ↔ m <+: v := by
  constructor
  · intro hp
    rw [List.prefix_iff_eq_take] at hp ⊢
    rw [List.take_append_of_le_length h] at hp
    exact hp
  · intro hp
    exact hp.trans (List.prefix_append v w)

theorem stripFromMarker_marker_append (x : List Char) :
    stripFromMarker (nohashMarker ++ x) = [] := by
  rw [show nohashMarker ++ x = '-' :: (['n', 'o', 'h', 'a', 's', 'h', '-'] ++ x) from rfl]
  rw [stripFromMarker_cons]
  have hp : nohashMarker.isPrefixOf ('-' :: (['n', 'o', 'h', 'a', 's', 'h', '-'] ++ x)) = true := by
    rw [List.isPrefixOf_iff_prefix]
    exact List.prefix_append nohashMarker x
  rw [if_pos hp]

theorem stripFromMarker_append_marker (a b : List Char) :
    ∀ pre : List Char,
      stripFromMarker (pre ++ (nohashMarker ++ a)) =
        stripFromMarker (pre ++ (nohashMarker ++ b)) := by
  intro pre
  induction pre with
  | nil =>
    simp only [List.nil_append]
    rw [stripFromMarker_marker_append, stripFromMarker_marker_append]
  | cons c pre ih =>
    have hlen : nohashMarker.length ≤ (c :: (pre ++ nohashMarker)).length := by
      simp [List.length_append]
      omega
    have hshape : ∀ x : List Char,
        (c :: pre) ++ (nohashMarker ++ x) = (c :: (pre ++ nohashMarker)) ++ x := by
      intro x
      simp [List.append_assoc]
    have hcond : nohashMarker.isPrefixOf ((c :: pre) ++ (nohashMarker ++ a))
        = nohashMarker.isPrefixOf ((c :: pre) ++ (nohashMarker ++ b)) := by
      rw [hshape a, hshape b]
      have hiff : (nohashMarker <+: (c :: (pre ++ nohashMarker)) ++ a)
          ↔ (nohashMarker <+: (c :: (pre ++ nohashMarker)) ++ b) :=
        (prefix_of_append_iff a hlen).trans (prefix_of_append_iff b hlen).symm
      rw [← List.isPrefixOf_iff_prefix, ← List.isPrefixOf_iff_prefix] at hiff
      exact Bool.eq_iff_iff.mpr hiff
    rw [List.cons_append, List.cons_append, stripFromMarker_cons, stripFromMarker_cons]
    rw [← List.cons_append, ← List.cons_append, hcond]
    by_cases hb : nohashMarker.isPrefixOf ((c :: pre) ++ (nohashMarker ++ b)) = true
    · rw [hb]
      simp
    · rw [Bool.not_eq_true] at hb
      rw [hb]
      simp only [Bool.false_eq_true, if_false]
      rw [ih]

/-- C9: two file paths whose slugs differ only in the suffix after the
`-nohash-` marker produce subsample keys with an identical first component
(the speaker hash of the shared part before the marker) and different
second components (the file-level hash of the full, distinct slugs). -/
theorem c9_speaker_hash_shared (p1 p2 pre a b : String)
    (h1 : slugify_file_name p1 = pre ++ "-nohash-" ++ a)
    (h2 : slugify_file_name p2 = pre ++ "-nohash-" ++ b)
    (hab : a ≠ b) :
    (get_subsample_key (slugify_file_name p1)).1 = (get_subsample_key (slugify_file_name p2)).1
    ∧ (get_subsample_key (slugify_file_name p1)).2
      ≠ (get_subsample_key (slugify_file_name p2)).2 := by
  rw [h1, h2]
  constructor
  · show filename_to_int_hash (removeNohash (pre ++ "-nohash-" ++ a))
      = filename_to_int_hash (removeNohash (pre ++ "-nohash-" ++ b))
    unfold removeNohash filename_to_int_hash
    have e1 : (pre ++ ("-nohash-" : String) ++ a).data = pre.data ++ (nohashMarker ++ a.data) := by
      rw [String.data_append, String.data_append, List.append_assoc]
      rfl
    have e2 : (pre ++ ("-nohash-" : String) ++ b).data = pre.data ++ (nohashMarker ++ b.data) := by
      rw [String.data_append, String.data_append, List.append_assoc]
      rfl
    rw [e1, e2, stripFromMarker_append_marker a.data b.data pre.data]
  · intro h
    apply hab
    have hs := filename_to_int_hash_inj h
    have hd := congrArg String.data hs
    rw [String.data_append, String.data_append, String.data_append, String.data_append] at hd
    exact String.ext (List.append_cancel_left hd)

theorem c9_witness :
    slugify_file_name ("off/xyz123-nohash-0.wav") = ("off-xyz123" ++ "-nohash-" ++ "0")
    ∧ slugify_file_name ("off/xyz123-nohash-1.wav") = ("off-xyz123" ++ "-nohash-" ++ "1")
    ∧ ("0" : String) ≠ ("1" : String)
    ∧ ((get_subsample_key (slugify_file_name ("off/xyz123-nohash-0.wav"))).1
        = (get_subsample_key (slugify_file_name ("off/xyz123-nohash-1.wav"))).1
      ∧ (get_subsample_key (slugify_file_name ("off/xyz123-nohash-0.wav"))).2
        ≠ (get_subsample_key (slugify_file_name ("off/xyz123-nohash-1.wav"))).2) :=
  ⟨by decide, by decide, by decide,
    c9_speaker_hash_shared ("off/xyz123-nohash-0.wav") ("off/xyz123-nohash-1.wav")
      ("off-xyz123") ("0") ("1") (by decide) (by decide) (by decide)⟩

/-! ## Embedding of `ExtractMetadata.get_split_paths` and `get_process_metadata`

The two upstream working directories are modelled by their root path plus
the list of file paths relative to that root; the two reference lists are
the line lists of `validation_list.txt` and `testing_list.txt`.  `pathlib`
globbing over a directory is the corresponding filter of the file list,
with results joined to the root, exactly as `Path.glob` yields paths under
the globbed directory. -/

/-- A value stored in the `relpath` dataframe column.  The source mixes two
runtime types in that column: plain strings produced by `os.path.join`
(joined `validation_list.txt` lines and joined train audio paths), and
`pathlib.Path` objects produced by `Path.glob` (test files and silence
clips).  Pandas `merge` compares values with Python equality, under which
a `str` and a `Path` of equal text are never equal, so the runtime type is
part of the semantics and is kept here. -/
inductive PVal where
  | str : String → PVal
  | path : String → PVal
deriving DecidableEq, Repr

/-- The text of a column value, `str(value)`: what the emitted table
serializes, and what `Path(...)`, `os.path.dirname` and friends act on —
for those helpers a `Path` and the equal-text `str` behave identically. -/
def PVal.text : PVal → String
  | PVal.str s => s
  | PVal.path s => s

structure Row where
  relpath : PVal
  split : String
deriving DecidableEq, Repr

structure MetaInputs where
  testRoot : String
  testFiles : List String
  trainRoot : String
  trainFiles : List String
  validationList : List String
  testingList : List String
deriving Repr

def strStartsWith (pre s : String) : Bool := pre.data.isPrefixOf s.data

def strEndsWith (suf s : String) : Bool := suf.data.reverse.isPrefixOf s.data.reverse

/-- Match a glob pattern of shape `X/Y` (two components): the relative path
must have exactly two separator-split components satisfying the two
component predicates. -/
def twoComp (cond1 cond2 : String → Bool) (rel : String) : Bool :=
  match (splitOnChar '/' rel.data).map String.mk with
  | [d, f] => cond1 d && cond2 f
  | _ => false

def isWav (f : String) : Bool := strEndsWith (".wav") f

/-- First character of the component is not an underscore (glob `[!_]*`). -/
def notUnderscoreFirst (d : String) : Bool :=
  match d.data with
  | [] => false
  | c :: _ => c != '_'

/-- Glob `*/*.wav`. -/
def globStarWav (files : List String) : List String :=
  files.filter (twoComp (fun _ => true) isWav)

/-- Glob `_silence_/*.wav`. -/
def globSilenceWav (files : List String) : List String :=
  files.filter (twoComp (fun d => d == SILENCE) isWav)

/-- Glob `_silence_/running_tap*.wav`. -/
def globRunningTapWav (files : List String) : List String :=
  files.filter (twoComp (fun d => d == SILENCE)
    (fun f => strStartsWith ("running_tap") f && isWav f))

/-- Glob `[!_]*/*.wav`. -/
def globNonUnderscoreWav (files : List String) : List String :=
  files.filter (twoComp notUnderscoreFirst isWav)

/-- Embedding of `os.path.join(a, b)` for a root `a` that is non-empty and
has no trailing separator: `b` is taken verbatim when absolute. -/
def os_path_join (a b : String) : String :=
  if strStartsWith ("/") b then b else a ++ ("/" : String) ++ b

/-- `test_path.glob("*/*.wav")` rows: `Path` objects under the test dir. -/
def testRows (I : MetaInputs) : List Row :=
  (globStarWav I.testFiles).map
    (fun rel => ⟨PVal.path (I.testRoot ++ ("/" : String) ++ rel), "test"⟩)

/-- `train_path.glob(f"_silence_/*.wav")`: `Path` objects. -/
def allSilence (I : MetaInputs) : List PVal :=
  (globSilenceWav I.trainFiles).map
    (fun rel => PVal.path (I.trainRoot ++ ("/" : String) ++ rel))

/-- `train_path.glob(f"_silence_/running_tap*.wav")`: `Path` objects. -/
def valSilence (I : MetaInputs) : List PVal :=
  (globRunningTapWav I.trainFiles).map
    (fun rel => PVal.path (I.trainRoot ++ ("/" : String) ++ rel))

/-- `validation_rel_paths`: the `validation_list.txt` lines joined to the
train root are `str` values; the `running_tap` silence clips appended by
`extend(val_silence)` stay `Path` values — both types coexist in the one
column, exactly as in the source. -/
def validRelPaths (I : MetaInputs) : List PVal :=
  I.validationList.map (fun p => PVal.str (os_path_join I.trainRoot p)) ++ valSilence I

/-- The enumerated training-audio set `A`: relative path strings, from
`str(p.relative_to(train_path))`. -/
def audioPaths (I : MetaInputs) : List String := globNonUnderscoreWav I.trainFiles

/-- `train_rel_paths`: the joined audio paths (after the set subtraction of
the two reference lists, which is string-versus-string) are `str` values;
the appended training silence clips (`set(all_silence) - set(val_silence)`
is Path-versus-Path) are `Path` values. -/
def trainRelPaths (I : MetaInputs) : List PVal :=
  ((audioPaths I).dedup.filter
      (fun p => !(I.testingList.contains p) && !(I.validationList.contains p))).map
    (fun p => PVal.str (os_path_join I.trainRoot p))
  ++ (allSilence I).dedup.filter (fun p => !((valSilence I).contains p))

def validRows (I : MetaInputs) : List Row := (validRelPaths I).map (fun p => ⟨p, "valid"⟩)

def trainRows (I : MetaInputs) : List Row := (trainRelPaths I).map (fun p => ⟨p, "train"⟩)

def intersectionMsg : String := "assert failed: train and validation splits intersect"

/-- Embedding of `ExtractMetadata.get_split_paths`: the
`assert len(train_df.merge(validation_df, on="relpath")) == 0` becomes an
error result when the two columns share a value — under the same
type-sensitive equality pandas uses, since `PVal` equality never
identifies a `str` with a `path` of equal text.  On success the
concatenation test / validation / train is returned. -/
def get_split_paths (I : MetaInputs) : Except String (List Row) :=
  if (trainRelPaths I).any (fun p => (validRelPaths I).contains p)
  then Except.error intersectionMsg
  else Except.ok (testRows I ++ validRows I ++ trainRows I)

structure MetaRow where
  relpath : PVal
  split : String
  slug : String
  subsample_key : Nat × Nat
  label : String
deriving DecidableEq, Repr

/-- The per-row assignment performed by `get_process_metadata`.  The slug
and label helpers receive the column value; whether it is a `str` or a
`Path`, `Path(relative_path).parts` and `os.path.dirname`/`basename` act
on its text. -/
def enrich (r : Row) : MetaRow :=
  ⟨r.relpath, r.split, slugify_file_name r.relpath.text,
    get_subsample_key (slugify_file_name r.relpath.text), apply_label r.relpath.text⟩

/-- Embedding of `ExtractMetadata.get_process_metadata`: take the split
table and assign slug, subsample key and label to every row. -/
def get_process_metadata (I : MetaInputs) : Except String (List MetaRow) :=
  Except.map (fun rows => rows.map enrich) (get_split_paths I)

theorem contains_iff_mem {α : Type} [BEq α] [LawfulBEq α] {l : List α} {a : α} :
    l.contains a = true ↔ a ∈ l := List.elem_iff

theorem string_append_left_cancel {x y z : String} (h : x ++ y = x ++ z) : y = z := by
  have hd := congrArg String.data h
  rw [String.data_append, String.data_append] at hd
  exact String.ext (List.append_cancel_left hd)

theorem twoComp_eq_true_iff (c1 c2 : String → Bool) (p : String) :
    twoComp c1 c2 p = true
      ↔ ∃ d f, (splitOnChar '/' p.data).map String.mk = [d, f]
          ∧ c1 d = true ∧ c2 f = true := by
  unfold twoComp
  rcases (splitOnChar '/' p.data).map String.mk with _ | ⟨d, _ | ⟨f, _ | ⟨g, rest⟩⟩⟩
  · simp
  · simp
  · simp only [Bool.and_eq_true]
    constructor
    · rintro ⟨h1, h2⟩
      exact ⟨d, f, rfl, h1, h2⟩
    · rintro ⟨d1, f1, heq, h1, h2⟩
      injection heq with e1 e2
      injection e2 with e3 e4
      subst e1
      subst e3
      exact ⟨h1, h2⟩
  · simp

theorem splitOnChar_cons_sep (rest : List Char) :
    splitOnChar '/' ('/' :: rest) = [] :: splitOnChar '/' rest := by
  unfold splitOnChar
  simp [splitOnCharAux]

/-- A relative path matched by a two-component glob whose first-component
predicate rejects the empty component cannot be absolute. -/
theorem twoComp_not_abs (c1 c2 : String → Bool) (p : String)
    (hc : c1 ("") = false) (h : twoComp c1 c2 p = true) :
    strStartsWith ("/") p = false := by
  by_contra habs
  rw [Bool.not_eq_false] at habs
  obtain ⟨d, f, hm, hd, hf⟩ := (twoComp_eq_true_iff c1 c2 p).mp h
  unfold strStartsWith at habs
  cases hpd : p.data with
  | nil =>
    rw [hpd] at habs
    simp [List.isPrefixOf] at habs
  | cons c rest =>
    rw [hpd] at habs
    simp only [List.isPrefixOf, Bool.and_eq_true, beq_iff_eq] at habs
    obtain ⟨hcs, _⟩ := habs
    subst hcs
    rw [hpd, splitOnChar_cons_sep, List.map_cons] at hm
    injection hm with e1 e2
    rw [← e1] at hd
    rw [hc] at hd
    exact Bool.noConfusion hd

/-- A path cannot simultaneously match the `_silence_/*.wav` glob and the
`[!_]*/*.wav` glob: the silence folder starts with an underscore. -/
theorem silence_ne_audio (p rel : String)
    (hp : twoComp notUnderscoreFirst isWav p = true)
    (hrel : twoComp (fun d => d == SILENCE) isWav rel = true)
    (heq : rel = p) : False := by
  subst heq
  obtain ⟨d, f, hm, hd, hf⟩ := (twoComp_eq_true_iff _ _ rel).mp hp
  obtain ⟨d1, f1, hm1, hd1, hf1⟩ := (twoComp_eq_true_iff _ _ rel).mp hrel
  rw [hm] at hm1
  injection hm1 with e1 e2
  have hsil : d = SILENCE := by
    rw [e1]
    exact eq_of_beq hd1
  rw [hsil] at hd
  exact absurd hd (by decide)

/-! ## Claims C3, C5, C2 -/

/-- C3 (amended): the partition step asserts that the train and validation
tables share no `relpath` value under the dataframe's type-sensitive
equality, where a joined `str` never equals a globbed `Path` of the same
text; whenever that typed intersection is non-empty, the whole stage
aborts with the assertion error — it is not logged and ignored — and no
metadata table is emitted. -/
theorem c3_intersection_aborts (I : MetaInputs)
    (h : ∃ pv, pv ∈ trainRelPaths I ∧ pv ∈ validRelPaths I) :
    get_split_paths I = Except.error intersectionMsg
    ∧ get_process_metadata I = Except.error intersectionMsg := by
  obtain ⟨pv, hp1, hp2⟩ := h
  have hc : (trainRelPaths I).any (fun q => (validRelPaths I).contains q) = true := by
    rw [List.any_eq_true]
    exact ⟨pv, hp1, contains_iff_mem.mpr hp2⟩
  have h1 : get_split_paths I = Except.error intersectionMsg := by
    unfold get_split_paths
    rw [if_pos hc]
  refine ⟨h1, ?_⟩
  unfold get_process_metadata
  rw [h1]
  rfl

def c3Input : MetaInputs := ⟨"/s", [], "/t", ["a/x.wav"], ["/t/a/x.wav"], []⟩

theorem c3_witness :
    (∃ pv, pv ∈ trainRelPaths c3Input ∧ pv ∈ validRelPaths c3Input)
    ∧ get_split_paths c3Input = Except.error intersectionMsg
    ∧ get_process_metadata c3Input = Except.error intersectionMsg := by
  have hex : ∃ pv, pv ∈ trainRelPaths c3Input ∧ pv ∈ validRelPaths c3Input :=
    ⟨PVal.str ("/t/a/x.wav"), by decide, by decide⟩
  exact ⟨hex, c3_intersection_aborts c3Input hex⟩

def c3CrossInput : MetaInputs := ⟨"/s", [], "/t", ["_silence_/x.wav"], ["_silence_/x.wav"], []⟩

/-- C3 (counterexample): a `validation_list.txt` line naming an existing
non-`running_tap` silence clip puts that clip's text into the validation
column as a `str`, while the train column holds the equal-text `Path`
object; the merge-based assert cannot match the two, so the stage does
not abort — the metadata table is emitted with the same path text carried
both by a "valid" row and by a "train" row, refuting the claim that every
non-empty train-and-valid path intersection aborts the stage with no
table emitted. -/
theorem c3_counterexample :
    get_split_paths c3CrossInput
      = Except.ok [Row.mk (PVal.str ("/t/_silence_/x.wav")) ("valid"),
          Row.mk (PVal.path ("/t/_silence_/x.wav")) ("train")]
    ∧ (PVal.str ("/t/_silence_/x.wav")).text = (PVal.path ("/t/_silence_/x.wav")).text
    ∧ PVal.str ("/t/_silence_/x.wav") ≠ PVal.path ("/t/_silence_/x.wav") :=
  ⟨rfl, rfl, by decide⟩

/-- C5: a path listed in `validation_list.txt` that also belongs to the
enumerated training-audio set `A` ends up in the emitted table as a
"valid" row, and no "train" row of the table carries that path text —
neither the joined string itself nor an equal-text `Path`: the set
subtraction removes it from the train audio, and the train silence clips
all live under the `_silence_` folder, which `A` excludes. -/
theorem c5_validation_precedence (I : MetaInputs) (p : String) (t : List Row)
    (hv : p ∈ I.validationList) (ha : p ∈ audioPaths I)
    (hok : get_split_paths I = Except.ok t) :
    Row.mk (PVal.str (os_path_join I.trainRoot p)) ("valid") ∈ t
    ∧ ∀ r ∈ t, r.split = "train" → r.relpath.text ≠ os_path_join I.trainRoot p := by
  have ha2 : p ∈ I.trainFiles ∧ twoComp notUnderscoreFirst isWav p = true :=
    List.mem_filter.mp ha
  have hpna : strStartsWith ("/") p = false :=
    twoComp_not_abs notUnderscoreFirst isWav p (by decide) ha2.2
  have hpna2 : ¬ strStartsWith ("/") p = true := by
    rw [hpna]
    exact Bool.false_ne_true
  have hjoin : os_path_join I.trainRoot p = I.trainRoot ++ ("/" : String) ++ p := by
    unfold os_path_join
    rw [if_neg hpna2]
  have hvmem : PVal.str (os_path_join I.trainRoot p) ∈ validRelPaths I := by
    unfold validRelPaths
    exact List.mem_append_left _ (List.mem_map_of_mem _ hv)
  unfold get_split_paths at hok
  by_cases hc : (trainRelPaths I).any (fun q => (validRelPaths I).contains q) = true
  · rw [if_pos hc] at hok
    cases hok
  · rw [if_neg hc] at hok
    injection hok with ht
    subst ht
    constructor
    · have hrow : Row.mk (PVal.str (os_path_join I.trainRoot p)) ("valid") ∈ validRows I := by
        unfold validRows
        exact List.mem_map_of_mem _ hvmem
      exact List.mem_append_left _ (List.mem_append_right _ hrow)
    · intro r hr hsplit heqtext
      rcases List.mem_append.mp hr with hmem2 | htr
      · rcases List.mem_append.mp hmem2 with hte | hva
        · unfold testRows at hte
          rcases List.mem_map.mp hte with ⟨rel, _, heq⟩
          rw [← heq] at hsplit
          have hx : ("test" : String) = "train" := hsplit
          exact absurd hx (by decide)
        · unfold validRows at hva
          rcases List.mem_map.mp hva with ⟨q, _, heq⟩
          rw [← heq] at hsplit
          have hx : ("valid" : String) = "train" := hsplit
          exact absurd hx (by decide)
      · unfold trainRows at htr
        rcases List.mem_map.mp htr with ⟨pv, hpv, heq⟩
        have hrel : r.relpath = pv := by
          rw [← heq]
        rw [hrel] at heqtext
        unfold trainRelPaths at hpv
        rcases List.mem_append.mp hpv with hstr | hsil
        · rcases List.mem_map.mp hstr with ⟨q, hq, hpveq⟩
          obtain ⟨hqmem, hqpred⟩ := List.mem_filter.mp hq
          have hqa : q ∈ audioPaths I := List.mem_dedup.mp hqmem
          have hqa2 : q ∈ I.trainFiles ∧ twoComp notUnderscoreFirst isWav q = true :=
            List.mem_filter.mp hqa
          have hqna2 : ¬ strStartsWith ("/") q = true := by
            rw [twoComp_not_abs notUnderscoreFirst isWav q (by decide) hqa2.2]
            exact Bool.false_ne_true
          have hqjoin : os_path_join I.trainRoot q = I.trainRoot ++ ("/" : String) ++ q := by
            unfold os_path_join
            rw [if_neg hqna2]
          rw [← hpveq] at heqtext
          have htext : os_path_join I.trainRoot q = os_path_join I.trainRoot p := heqtext
          rw [hqjoin, hjoin] at htext
          have hqp : q = p := string_append_left_cancel htext
          rw [Bool.and_eq_true] at hqpred
          have hnv := hqpred.2
          rw [Bool.not_eq_true'] at hnv
          rw [hqp] at hnv
          have hcv := contains_iff_mem.mpr hv
          rw [hnv] at hcv
          exact Bool.noConfusion hcv
        · obtain ⟨hsmem, _⟩ := List.mem_filter.mp hsil
          have hsall : pv ∈ allSilence I := List.mem_dedup.mp hsmem
          unfold allSilence at hsall
          rcases List.mem_map.mp hsall with ⟨rel, hrelmem, hpveq⟩
          unfold globSilenceWav at hrelmem
          obtain ⟨_, hreltc⟩ := List.mem_filter.mp hrelmem
          rw [← hpveq] at heqtext
          have htext : I.trainRoot ++ ("/" : String) ++ rel = os_path_join I.trainRoot p :=
            heqtext
          rw [hjoin] at htext
          have hrp : rel = p := string_append_left_cancel htext
          exact silence_ne_audio p rel ha2.2 hreltc hrp

def c5Input : MetaInputs := ⟨"/s", [], "/t", ["a/x.wav"], ["a/x.wav"], []⟩

theorem c5_witness :
    ("a/x.wav" : String) ∈ c5Input.validationList
    ∧ ("a/x.wav" : String) ∈ audioPaths c5Input
    ∧ get_split_paths c5Input = Except.ok [Row.mk (PVal.str ("/t/a/x.wav")) ("valid")]
    ∧ (Row.mk (PVal.str (os_path_join c5Input.trainRoot ("a/x.wav"))) ("valid")
          ∈ [Row.mk (PVal.str ("/t/a/x.wav")) ("valid")]
      ∧ ∀ r ∈ [Row.mk (PVal.str ("/t/a/x.wav")) ("valid")],
          r.split = "train" → r.relpath.text ≠ os_path_join c5Input.trainRoot ("a/x.wav")) :=
  ⟨by decide, by decide, rfl,
    c5_validation_precedence c5Input ("a/x.wav") [Row.mk (PVal.str ("/t/a/x.wav")) ("valid")]
      (by decide) (by decide) rfl⟩

/-- C2 (amended): an emitted metadata table is the concatenation of the
test, validation and train partitions, so its row count equals
test count + valid count + train count by construction, and every row
carries exactly one split value drawn from train/valid/test; but no
separate no-duplication check is performed before emitting, and
`relative_path` values need not be unique. -/
theorem c2_rowcount_and_split_closure (I : MetaInputs) (t : List MetaRow)
    (h : get_process_metadata I = Except.ok t) :
    t.length = (testRows I).length + (validRows I).length + (trainRows I).length
    ∧ ∀ r ∈ t, r.split = "train" ∨ r.split = "valid" ∨ r.split = "test" := by
  unfold get_process_metadata get_split_paths at h
  by_cases hc : (trainRelPaths I).any (fun q => (validRelPaths I).contains q) = true
  · rw [if_pos hc] at h
    cases h
  · rw [if_neg hc] at h
    have ht : t = (testRows I ++ validRows I ++ trainRows I).map enrich := by
      injection h with h2
      exact h2.symm
    subst ht
    constructor
    · simp [List.length_map, List.length_append, Nat.add_assoc]
    · intro r hr
      rw [List.mem_map] at hr
      obtain ⟨row, hrow, henr⟩ := hr
      have hsp : r.split = row.split := by
        rw [← henr]
        rfl
      rcases List.mem_append.mp hrow with hrow2 | htr
      · rcases List.mem_append.mp hrow2 with hte | hva
        · unfold testRows at hte
          rcases List.mem_map.mp hte with ⟨rel, _, heq⟩
          right; right
          rw [hsp, ← heq]
        · unfold validRows at hva
          rcases List.mem_map.mp hva with ⟨q, _, heq⟩
          right; left
          rw [hsp, ← heq]
      · unfold trainRows at htr
        rcases List.mem_map.mp htr with ⟨q, _, heq⟩
        left
        rw [hsp, ← heq]

def c2OkInput : MetaInputs := ⟨"/s", ["a/y.wav"], "/t", ["go/x.wav"], [], []⟩

theorem c2_witness :
    get_process_metadata c2OkInput
      = Except.ok ((testRows c2OkInput ++ validRows c2OkInput ++ trainRows c2OkInput).map enrich)
    ∧ (((testRows c2OkInput ++ validRows c2OkInput ++ trainRows c2OkInput).map enrich).length
        = (testRows c2OkInput).length + (validRows c2OkInput).length + (trainRows c2OkInput).length
      ∧ ∀ r ∈ (testRows c2OkInput ++ validRows c2OkInput ++ trainRows c2OkInput).map enrich,
          r.split = "train" ∨ r.split = "valid" ∨ r.split = "test") :=
  ⟨rfl, c2_rowcount_and_split_closure c2OkInput
    ((testRows c2OkInput ++ validRows c2OkInput ++ trainRows c2OkInput).map enrich) rfl⟩

def c2DupInput : MetaInputs := ⟨"/s", [], "/t", ["a/x.wav"], ["a/x.wav", "a/x.wav"], []⟩

/-- C2 (counterexample): with a duplicated line in `validation_list.txt`
the pipeline emits a metadata table whose `relpath` column contains the
same value twice — the table is not one row per unique relative path, and
no check catches the duplication before emitting. -/
theorem c2_counterexample :
    Except.map (fun t => t.map MetaRow.relpath) (get_process_metadata c2DupInput)
      = Except.ok [PVal.str ("/t/a/x.wav"), PVal.str ("/t/a/x.wav")]
    ∧ ¬ ([PVal.str ("/t/a/x.wav"), PVal.str ("/t/a/x.wav")] : List PVal).Nodup :=
  ⟨rfl, by decide⟩

/-! ## Embedding of `GenerateTrainDataset.run` -/

/-- Python `range(start, stop, step)` for a positive step, computed with
structural fuel: with `step ≥ 1` every iteration advances by at least one
position, so `stop - start` units of fuel always suffice.  (Python raises
on `step = 0`; the callers below always pass a positive step.) -/
def pyRangeAux : Nat → Nat → Nat → Nat → List Nat
  | 0, _, _, _ => []
  | fuel+1, start, stop, step =>
    if start < stop then start :: pyRangeAux fuel (start + step) stop step else []

def pyRange (start stop step : Nat) : List Nat :=
  pyRangeAux (stop - start) start stop step

/-- The slice start offsets for one background recording of `D` samples at
native rate `R`: Python `range(0, len(audio) - sr, sr // 2)`.  A negative
Python stop yields the empty range, exactly like the clamped natural
subtraction. -/
def sliceOffsets (D R : Nat) : List Nat := pyRange 0 (D - R) (R / 2)

def numSilenceClips (D R : Nat) : Nat := (sliceOffsets D R).length

/-- The clip-count formula asserted by the spec sentence behind C1,
`max(0, floor((D - R) / (R/2)) + 1)`, written over the integers so that
`D < R` behaves as the spec intends. -/
def claimedNumClips (D R : Int) : Int := max 0 ((D - R) / (R / 2) + 1)

theorem pyRangeAux_eq (step : Nat) (hstep : 0 < step) :
    ∀ fuel start stop, stop - start ≤ fuel →
      pyRangeAux fuel start stop step
        = (List.range ((stop - start + step - 1) / step)).map (fun k => start + k * step) := by
  intro fuel
  induction fuel with
  | zero =>
    intro start stop hle
    have h0 : stop - start = 0 := Nat.le_zero.mp hle
    rw [h0]
    have hz : (0 + step - 1) / step = 0 := Nat.div_eq_of_lt (by omega)
    rw [hz]
    rfl
  | succ fuel ih =>
    intro start stop hle
    by_cases hlt : start < stop
    · have hfuel : stop - (start + step) ≤ fuel := by omega
      rw [show pyRangeAux (fuel+1) start stop step
            = start :: pyRangeAux fuel (start + step) stop step from by
          simp [pyRangeAux, hlt]]
      rw [ih (start + step) stop hfuel]
      have harith : (stop - start + step - 1) / step
          = (stop - (start + step) + step - 1) / step + 1 := by
        have e1 : stop - start + step - 1 = (stop - start - 1) + step := by omega
        rw [e1, Nat.add_div_right _ hstep]
        by_cases hge : step ≤ stop - start
        · have e2 : stop - (start + step) + step - 1 = stop - start - 1 := by omega
          rw [e2]
        · have e2 : stop - (start + step) = 0 := by omega
          rw [e2]
          have e3 : (0 + step - 1) / step = 0 := Nat.div_eq_of_lt (by omega)
          have e4 : (stop - start - 1) / step = 0 := Nat.div_eq_of_lt (by omega)
          rw [e3, e4]
      rw [harith, List.range_succ_eq_map, List.map_cons, List.map_map]
      congr 1
      · simp
      · congr 1
        funext k
        simp [Function.comp]
        ring
    · have h0 : stop - start = 0 := by omega
      rw [show pyRangeAux (fuel+1) start stop step = [] from by simp [pyRangeAux, hlt]]
      rw [h0]
      have hz : (0 + step - 1) / step = 0 := Nat.div_eq_of_lt (by omega)
      rw [hz]
      rfl

theorem sliceOffsets_eq (D R : Nat) (h : 2 ≤ R) :
    sliceOffsets D R
      = (List.range ((D - R + R / 2 - 1) / (R / 2))).map (fun k => k * (R / 2)) := by
  unfold sliceOffsets pyRange
  have hstep : 0 < R / 2 := Nat.div_pos (by omega) (by omega)
  rw [pyRangeAux_eq (R / 2) hstep (D - R - 0) 0 (D - R) (by omega)]
  simp

/-- C1 (counterexample): for a background recording of `D = 32000` samples
at `R = 16000` the code slices clips at offsets 0 and 8000 only — the stop
of `range(0, D - R, R // 2)` is exclusive, so offset 16000, whose full
window exactly reaches the buffer end, is skipped — whereas the claimed
count `max(0, floor((D - R) / (R/2)) + 1)` is 3. -/
theorem c1_counterexample :
    numSilenceClips 32000 16000 = 2
    ∧ sliceOffsets 32000 16000 = [0, 8000]
    ∧ claimedNumClips 32000 16000 = 3 :=
  ⟨by decide, by decide, by decide⟩

/-- C1 (amended): for every background recording of duration `D` samples at
rate `R ≥ 2`, clips start at offsets `0, R//2, 2*(R//2), ...` strictly
below `D - R` (so an offset whose window would exactly reach the buffer
end is excluded), the total count is the ceiling `⌈(D-R)/(R//2)⌉`
(equivalently `max(0, ...)` since natural subtraction clamps at zero), and
any recording with `D ≤ R` — not only `D < R` — yields zero clips. -/
theorem c1_amended (D R : Nat) (h : 2 ≤ R) :
    sliceOffsets D R
      = (List.range ((D - R + R / 2 - 1) / (R / 2))).map (fun k => k * (R / 2))
    ∧ numSilenceClips D R = (D - R + R / 2 - 1) / (R / 2)
    ∧ (D ≤ R → numSilenceClips D R = 0) := by
  have he := sliceOffsets_eq D R h
  refine ⟨he, ?_, ?_⟩
  · unfold numSilenceClips
    rw [he, List.length_map, List.length_range]
  · intro hDR
    unfold numSilenceClips
    rw [he, List.length_map, List.length_range]
    have h0 : D - R = 0 := by omega
    rw [h0]
    exact Nat.div_eq_of_lt (by omega)

theorem c1_witness :
    2 ≤ 16000
    ∧ (sliceOffsets 56000 16000
        = (List.range ((56000 - 16000 + 16000 / 2 - 1) / (16000 / 2))).map
            (fun k => k * (16000 / 2))
      ∧ numSilenceClips 56000 16000 = (56000 - 16000 + 16000 / 2 - 1) / (16000 / 2)
      ∧ (56000 ≤ 16000 → numSilenceClips 56000 16000 = 0)) :=
  ⟨by decide, c1_amended 56000 16000 (by decide)⟩

structure BgRecording where
  name : String
  ext : String
  audioLen : Nat
  sr : Nat
deriving Repr

structure TrainEntry where
  name : String
  isDir : Bool
deriving Repr

structure GenOutput where
  silenceFiles : List String
  dirSymlinks : List String
  fileSymlinks : List String
  completed : Bool
deriving Repr

/-- Embedding of `GenerateTrainDataset.run`: the `assert` that at least one
background recording was found guards the whole body; only when it holds
are the silence clips written (named `{name}-{start}{ext}` for each slice
offset of each recording), the class-folder and reference-list symlinks
created, and the task marked complete. -/
def generateTrainDatasetRun (backgroundAudio : List BgRecording)
    (trainEntries : List TrainEntry) : Except String GenOutput :=
  if backgroundAudio.length > 0 then
    Except.ok
      ⟨(backgroundAudio.map (fun r =>
          (sliceOffsets r.audioLen r.sr).map
            (fun start => r.name ++ ("-" : String) ++ toString start ++ r.ext))).flatten,
        (trainEntries.filter (fun e => e.isDir && e.name != BACKGROUND_NOISE)).map TrainEntry.name,
        (trainEntries.filter (fun e => e.name == ("testing_list.txt" : String)
            || e.name == ("validation_list.txt" : String))).map TrainEntry.name,
        true⟩
  else Except.error ("assert failed: len(background_audio) > 0")

/-- C6: with zero background recordings found, `GenerateTrainDataset.run`
fails its precondition assert before doing anything: the run is an error
and never a completed output, so no silence clip is produced, no symlink
is created and the stage is not marked complete. -/
theorem c6_empty_background_aborts (trainEntries : List TrainEntry) :
    generateTrainDatasetRun [] trainEntries
      = Except.error ("assert failed: len(background_audio) > 0")
    ∧ ∀ out : GenOutput, generateTrainDatasetRun [] trainEntries ≠ Except.ok out := by
  constructor
  · rfl
  · intro out hcontra
    rw [show generateTrainDatasetRun [] trainEntries
        = Except.error ("assert failed: len(background_audio) > 0") from rfl] at hcontra
    exact Except.noConfusion hcontra
